import Mathlib

/-!
Verification development for the stock-market analyzer
(`stock_analyzer.py`).  The core pipeline

  Cleaner → Indicator Engine → Signal Evaluator → Recommendation Mapper

is embedded shallowly: prices are exact rationals (`ℚ`), an undefined
(NaN) value is `none : Option ℚ`, and numeric comparisons follow IEEE
semantics (every comparison against NaN is false).  Square roots
(Bollinger band widths, volatility) live in `ℝ`.
-/

/-! ## Float-style comparisons on possibly-undefined values

In the source every indicator column is a float column where missing
history yields NaN, and `NaN > x`, `NaN < x` are false. -/

/-- `a > b` where either side may be NaN (`none`): false unless both defined. -/
def fgt : Option ℚ → Option ℚ → Bool
  | some a, some b => a > b
  | _, _ => false

/-- `a < b` where either side may be NaN (`none`): false unless both defined. -/
def flt : Option ℚ → Option ℚ → Bool
  | some a, some b => a < b
  | _, _ => false

/-! ## Substring matching

`_calculate_composite_score` tests `"Bullish" in ma_signal` etc., Python
substring membership on the signal strings. -/

/-- Substring test on character lists: `needle` occurs inside `hay`. -/
def hasSubstr (needle : List Char) : List Char → Bool
  | [] => needle.isPrefixOf ([] : List Char)
  | c :: rest => needle.isPrefixOf (c :: rest) || hasSubstr needle rest

/-- Python `needle in hay` on strings (substring membership). -/
def strContains (needle hay : String) : Bool :=
  hasSubstr needle.data hay.data

/-! ## Data model: the latest indicator row consumed by the Signal Evaluator -/

/-- One bar of the indicator-augmented series, restricted to the fields the
Signal Evaluator reads.  `none` is an undefined (NaN) entry.  The Bollinger
bounds involve a square root and hence live in `ℝ`. -/
structure IndicatorRow where
  close : Option ℚ
  ma50 : Option ℚ
  ma200 : Option ℚ
  rsi : Option ℚ
  macd : Option ℚ
  macdSignal : Option ℚ
  bbUpper : Option ℝ
  bbLower : Option ℝ

/-! ## Signal Evaluator (`_get_ma_signal`, `_get_rsi_signal`,
`_get_macd_signal`, `_get_bb_signal`) -/

/-- `_get_ma_signal`: chained float comparisons `close > ma50 > ma200`,
`close > ma50`, `close < ma50 < ma200`, else "Bearish". -/
def get_ma_signal (r : IndicatorRow) : String :=
  if fgt r.close r.ma50 && fgt r.ma50 r.ma200 then "Strong Bullish"
  else if fgt r.close r.ma50 then "Bullish"
  else if flt r.close r.ma50 && flt r.ma50 r.ma200 then "Strong Bearish"
  else "Bearish"

/-- `_get_rsi_signal`: `rsi > 70` → Overbought, `rsi < 30` → Oversold,
else Neutral (NaN falls to Neutral). -/
def get_rsi_signal (rsi : Option ℚ) : String :=
  if fgt rsi (some 70) then "Overbought"
  else if flt rsi (some 30) then "Oversold"
  else "Neutral"

/-- `_get_macd_signal`: `macd > macd_signal` → Bullish else Bearish. -/
def get_macd_signal (r : IndicatorRow) : String :=
  if fgt r.macd r.macdSignal then "Bullish" else "Bearish"

/-- Real-valued float comparison for the Bollinger test (either side NaN →
false).  Classical order on `ℝ` makes this noncomputable, which matches the
fact that no claim evaluates it. -/
noncomputable def fgtR : Option ℝ → Option ℝ → Bool
  | some a, some b => decide (a > b)
  | _, _ => false

/-- `_get_bb_signal`: close above / below the Bollinger bounds. -/
noncomputable def get_bb_signal (r : IndicatorRow) : String :=
  if fgtR (r.close.map (fun q => (q : ℝ))) r.bbUpper then
    "Above upper band - potentially overbought"
  else if fgtR r.bbLower (r.close.map (fun q => (q : ℝ))) then
    "Below lower band - potentially oversold"
  else "Within normal range"

/-! ## Composite score and recommendation -/

/-- `_calculate_composite_score`: substring-matched additive score, clamped
to `[-3, 3]` by `max(-3, min(3, score))`. -/
def calculate_composite_score (maSig rsiSig macdSig : String) : Int :=
  let s1 : Int :=
    if strContains "Bullish" maSig then
      (if strContains "Strong" maSig then 2 else 1)
    else if strContains "Bearish" maSig then
      -(if strContains "Strong" maSig then 2 else 1)
    else 0
  let s2 : Int :=
    if rsiSig = "Overbought" then s1 - 1
    else if rsiSig = "Oversold" then s1 + 1
    else s1
  let s3 : Int := if macdSig = "Bullish" then s2 + 1 else s2 - 1
  max (-3) (min 3 s3)

/-- `_get_recommendation`: lookup in the fixed score table with default
"Hold" for any key not present. -/
def get_recommendation (score : Int) : String :=
  if score = 3 then "Strong Buy"
  else if score = 2 then "Strong Buy"
  else if score = 1 then "Buy"
  else if score = 0 then "Hold"
  else if score = -1 then "Sell"
  else if score = -2 then "Strong Sell"
  else if score = -3 then "Strong Sell"
  else "Hold"

/-- The Signal Set produced for one symbol (`_analyze_single_stock`). -/
structure SignalSet where
  maSignal : String
  rsiValue : Option ℚ
  rsiSignal : String
  macdSignal : String
  bbSignal : String
  score : Int
  recommendation : String

/-- `_analyze_single_stock`: evaluate every signal on the latest row,
score them and map the score to a recommendation. -/
noncomputable def analyze_single_stock (latest : IndicatorRow) : SignalSet :=
  let maSig := get_ma_signal latest
  let rsiSig := get_rsi_signal latest.rsi
  let macdSig := get_macd_signal latest
  let bbSig := get_bb_signal latest
  let score := calculate_composite_score maSig rsiSig macdSig
  { maSignal := maSig
    rsiValue := latest.rsi
    rsiSignal := rsiSig
    macdSignal := macdSig
    bbSignal := bbSig
    score := score
    recommendation := get_recommendation score }

/-- `analyze_trends` for one symbol: take the latest bar of the
indicator-augmented series and evaluate it; an entry is produced for every
non-empty series, with no precondition on defined indicator fields. -/
noncomputable def analyze_trends (rows : List IndicatorRow) : Option SignalSet :=
  rows.getLast?.map analyze_single_stock

/-! ## Indicator Engine (`calculate_technical_indicators`)

The engine is computed over the cleaned close series, a `List ℚ`; each
derived column is a function of the series and an index `t`, returning
`none` where the source column holds NaN (insufficient history). -/

/-- Trailing rolling mean of window `w` at index `t`: defined once `w`
values `x[t-w+1..t]` exist (pandas `rolling(w).mean()`). -/
def rollingMean (w : Nat) (xs : List ℚ) (t : Nat) : Option ℚ :=
  if t < xs.length ∧ w ≤ t + 1 then
    some ((((xs.take (t + 1)).drop (t + 1 - w)).sum) / (w : ℚ))
  else none

/-- Trailing rolling sample variance (`ddof = 1`) of window `w` at `t`:
`Σ (x − mean)² / (w − 1)` over `x[t-w+1..t]` (pandas `rolling(w).std()`
squared).  Rational, so it stays executable; the std itself is its real
square root. -/
def rollingVar (w : Nat) (xs : List ℚ) (t : Nat) : Option ℚ :=
  if t < xs.length ∧ w ≤ t + 1 then
    let win := (xs.take (t + 1)).drop (t + 1 - w)
    let m := win.sum / (w : ℚ)
    some ((win.map (fun x => (x - m) ^ 2)).sum / ((w : ℚ) - 1))
  else none

/-- Trailing rolling sample standard deviation at `t` (pandas
`rolling(w).std()`): the real square root of `rollingVar`. -/
noncomputable def rollingStd (w : Nat) (xs : List ℚ) (t : Nat) : Option ℝ :=
  (rollingVar w xs t).map (fun v => Real.sqrt (v : ℝ))

/-- `MA_50` column. -/
def ma50At (xs : List ℚ) (t : Nat) : Option ℚ := rollingMean 50 xs t

/-- `MA_200` column. -/
def ma200At (xs : List ℚ) (t : Nat) : Option ℚ := rollingMean 200 xs t

/-- Per-bar gain series from `delta.where(delta > 0, 0)`: the first delta
is NaN but the failed NaN comparison makes `where` substitute 0 there. -/
def gainAt (xs : List ℚ) (t : Nat) : ℚ :=
  if t = 0 then 0 else max (xs.getD t 0 - xs.getD (t - 1) 0) 0

/-- Per-bar loss series from `(-delta.where(delta < 0, 0))`: 0 at index 0,
`max(-delta, 0)` afterwards. -/
def lossAt (xs : List ℚ) (t : Nat) : ℚ :=
  if t = 0 then 0 else max (xs.getD (t - 1) 0 - xs.getD t 0) 0

/-- 14-bar trailing mean of the gain series. -/
def avgGain (xs : List ℚ) (t : Nat) : Option ℚ :=
  rollingMean 14 ((List.range xs.length).map (gainAt xs)) t

/-- 14-bar trailing mean of the loss series. -/
def avgLoss (xs : List ℚ) (t : Nat) : Option ℚ :=
  rollingMean 14 ((List.range xs.length).map (lossAt xs)) t

/-- `RSI` column: `100 - 100/(1 + gain/loss)` under float semantics for
the division of the nonnegative averages — `g/0` with `g > 0` is `+∞`
(so RSI is exactly 100) and `0/0` is NaN (RSI undefined). -/
def rsiAt (xs : List ℚ) (t : Nat) : Option ℚ :=
  match avgGain xs t, avgLoss xs t with
  | some g, some l =>
      if l = 0 then (if g = 0 then none else some 100)
      else some (100 - 100 / (1 + g / l))
  | _, _ => none

/-! ### Exponential moving averages

`Close.ewm(span=s).mean()` uses the pandas default `adjust=True`: the
value at `t` is the weighted average `Σᵢ (1-α)^(t-i)·x[i] / Σᵢ (1-α)^(t-i)`
with `α = 2/(s+1)`.  Operationally it maintains a numerator and a
denominator, each decayed by `(1-α)` per step. -/

/-- One `adjust=True` EWM step on the running (numerator, denominator). -/
def ewmStep (al : ℚ) (acc : ℚ × ℚ) (x : ℚ) : ℚ × ℚ :=
  ((1 - al) * acc.1 + x, (1 - al) * acc.2 + 1)

/-- Running EWM numerator and denominator over a whole series. -/
def ewmNumDen (al : ℚ) (xs : List ℚ) : ℚ × ℚ :=
  xs.foldl (ewmStep al) (0, 0)

/-- The `adjust=True` EWM value after consuming all of `xs` (nonempty). -/
def ewmLast (al : ℚ) (xs : List ℚ) : ℚ :=
  (ewmNumDen al xs).1 / (ewmNumDen al xs).2

/-- Smoothing factor of span `s`: `α = 2/(s+1)`. -/
def alphaOfSpan (s : ℚ) : ℚ := 2 / (s + 1)

/-- EWM column value at index `t`: the EWM of the prefix `x[0..t]`. -/
def ewmAt (s : ℚ) (xs : List ℚ) (t : Nat) : Option ℚ :=
  if t < xs.length then some (ewmLast (alphaOfSpan s) (xs.take (t + 1)))
  else none

/-- `MACD` value at `t` (total on `t < length`): span-12 EWM minus
span-26 EWM of close. -/
def macdVal (xs : List ℚ) (t : Nat) : ℚ :=
  ewmLast (alphaOfSpan 12) (xs.take (t + 1)) -
    ewmLast (alphaOfSpan 26) (xs.take (t + 1))

/-- `MACD` column. -/
def macdAt (xs : List ℚ) (t : Nat) : Option ℚ :=
  if t < xs.length then some (macdVal xs t) else none

/-- The `MACD` column as a series, input to the signal-line EWM. -/
def macdList (xs : List ℚ) : List ℚ :=
  (List.range xs.length).map (macdVal xs)

/-- `MACD_Signal` column: span-9 EWM of the MACD series. -/
def macdSignalAt (xs : List ℚ) (t : Nat) : Option ℚ :=
  ewmAt 9 (macdList xs) t

/-- `MACD_Histogram` column: `MACD - MACD_Signal`. -/
def macdHistAt (xs : List ℚ) (t : Nat) : Option ℚ :=
  match macdAt xs t, macdSignalAt xs t with
  | some a, some b => some (a - b)
  | _, _ => none

/-- `BB_Middle` column: 20-bar rolling mean. -/
def bbMiddleAt (xs : List ℚ) (t : Nat) : Option ℚ := rollingMean 20 xs t

/-- `BB_Upper` column: middle plus twice the 20-bar rolling std. -/
noncomputable def bbUpperAt (xs : List ℚ) (t : Nat) : Option ℝ :=
  match bbMiddleAt xs t, rollingStd 20 xs t with
  | some m, some s => some ((m : ℝ) + s * 2)
  | _, _ => none

/-- `BB_Lower` column: middle minus twice the 20-bar rolling std. -/
noncomputable def bbLowerAt (xs : List ℚ) (t : Nat) : Option ℝ :=
  match bbMiddleAt xs t, rollingStd 20 xs t with
  | some m, some s => some ((m : ℝ) - s * 2)
  | _, _ => none

/-- `Volatility` column: 30-bar rolling std of close. -/
noncomputable def volatilityAt (xs : List ℚ) (t : Nat) : Option ℝ :=
  rollingStd 30 xs t

/-- `Price_Change_Pct` column: `pct_change() * 100`, undefined at the
first bar. -/
def priceChangePctAt (xs : List ℚ) (t : Nat) : Option ℚ :=
  if 0 < t ∧ t < xs.length then
    some ((xs.getD t 0 / xs.getD (t - 1) 0 - 1) * 100)
  else none

/-- The full indicator row at index `t` of a cleaned close series, as the
Signal Evaluator sees it. -/
noncomputable def indicatorRowAt (xs : List ℚ) (t : Nat) : IndicatorRow :=
  { close := xs.get? t
    ma50 := ma50At xs t
    ma200 := ma200At xs t
    rsi := rsiAt xs t
    macd := macdAt xs t
    macdSignal := macdSignalAt xs t
    bbUpper := bbUpperAt xs t
    bbLower := bbLowerAt xs t }

/-- The indicator-augmented series of a close series, row by row. -/
noncomputable def indicatorRows (xs : List ℚ) : List IndicatorRow :=
  (List.range xs.length).map (indicatorRowAt xs)

/-! ## Cleaner (`clean_and_preprocess_data`)

A raw series is a set of per-field columns of equal length; a missing
cell is `none`.  The Cleaner forward-fills then backward-fills every
column (`fillna(method='ffill').fillna(method='bfill')` acts on the whole
frame), flags >50% single-step close moves and, when any bar is flagged,
overwrites exactly the flagged closes with the centered 3-bar rolling
mean of the filled close column. -/

/-- A raw OHLCV series as column lists (`none` = missing cell); the date
index is untouched by the Cleaner, so dates are abstract keys. -/
structure Series where
  dates : List ℤ
  opens : List (Option ℚ)
  highs : List (Option ℚ)
  lows : List (Option ℚ)
  closes : List (Option ℚ)
  volumes : List (Option ℚ)

/-- Forward fill with carried value `prev`: each missing cell takes the
nearest prior defined value, if one exists. -/
def ffillFrom (prev : Option ℚ) : List (Option ℚ) → List (Option ℚ)
  | [] => []
  | none :: rest => prev :: ffillFrom prev rest
  | some x :: rest => some x :: ffillFrom (some x) rest

/-- `fillna(method='ffill')` on one column. -/
def ffill (col : List (Option ℚ)) : List (Option ℚ) := ffillFrom none col

/-- `fillna(method='bfill')` on one column: forward fill of the reversal. -/
def bfill (col : List (Option ℚ)) : List (Option ℚ) :=
  (ffill col.reverse).reverse

/-- Both fills, in the source's order. -/
def fillCol (col : List (Option ℚ)) : List (Option ℚ) := bfill (ffill col)

/-- Outlier test at index `i` of the filled close column:
`Close.pct_change().abs() > 0.5` under float semantics.  The first bar's
change is NaN (never an outlier); a zero previous close gives `±∞` (flagged
when the numerator is nonzero) or NaN `0/0` (not flagged). -/
def outlierAt (fc : List (Option ℚ)) (i : Nat) : Bool :=
  if i = 0 then false
  else
    match fc.getD (i - 1) none, fc.getD i none with
    | some p, some c =>
        if p = 0 then c ≠ 0 else |c / p - 1| > 1 / 2
    | _, _ => false

/-- `Close.rolling(window=3, center=True).mean()` at index `i`: the mean
of the three neighbours `fc[i-1], fc[i], fc[i+1]`, undefined at either
series boundary or when a window cell is missing. -/
def roll3Mean (fc : List (Option ℚ)) (i : Nat) : Option ℚ :=
  if i = 0 then none
  else
    match fc.getD (i - 1) none, fc.getD i none, fc.getD (i + 1) none with
    | some a, some b, some c =>
        if i + 1 < fc.length then some ((a + b + c) / 3) else none
    | _, _, _ => none

/-- The cleaned close column: the filled closes, with every flagged close
replaced by the centered 3-bar rolling mean of the filled closes.  The
source performs the replacement only when at least one bar is flagged. -/
def cleanCloses (closes : List (Option ℚ)) : List (Option ℚ) :=
  let fc := fillCol closes
  if ((List.range fc.length).map (outlierAt fc)).any id then
    (List.range fc.length).map
      (fun i => if outlierAt fc i then roll3Mean fc i else fc.getD i none)
  else fc

/-- `clean_and_preprocess_data` on one symbol's series. -/
def clean_and_preprocess_data (s : Series) : Series :=
  { dates := s.dates
    opens := fillCol s.opens
    highs := fillCol s.highs
    lows := fillCol s.lows
    closes := cleanCloses s.closes
    volumes := fillCol s.volumes }

/-! ## Definitions modelled from the spec, for refinement comparisons -/

/-- Modelled from the spec: the EMA recurrence of §4.2,
`EMA[t] = α·close[t] + (1-α)·EMA[t-1]`, seeded by the first available
close (`EMA[0] = close[0]`); the value after consuming the whole list. -/
def emaRecur (al : ℚ) (xs : List ℚ) : ℚ :=
  match xs with
  | [] => 0
  | h :: rest => rest.foldl (fun e x => al * x + (1 - al) * e) h

/-- Modelled from the spec: MACD at `t` as recurrence-EMA span 12 minus
recurrence-EMA span 26 over the close prefix. -/
def macdSpecAt (xs : List ℚ) (t : Nat) : Option ℚ :=
  if t < xs.length then
    some (emaRecur (alphaOfSpan 12) (xs.take (t + 1)) -
      emaRecur (alphaOfSpan 26) (xs.take (t + 1)))
  else none

/-- The closed form of the `adjust=True` EWM that the source actually
computes: the `(1-α)`-weighted average of the whole history,
`Σᵢ (1-α)^(n-1-i)·x[i] / Σᵢ (1-α)^i`. -/
def adjEMA (al : ℚ) (xs : List ℚ) : ℚ :=
  (∑ i ∈ Finset.range xs.length, (1 - al) ^ (xs.length - 1 - i) * xs.getD i 0) /
    (∑ i ∈ Finset.range xs.length, (1 - al) ^ i)

/-- Modelled from the spec: the MA contribution table of §4.3. -/
def maContribution : String → Int
  | "Strong Bullish" => 2
  | "Bullish" => 1
  | "Strong Bearish" => -2
  | "Bearish" => -1
  | _ => 0

/-- Modelled from the spec: the RSI contribution table of §4.3. -/
def rsiContribution : String → Int
  | "Overbought" => -1
  | "Oversold" => 1
  | _ => 0

/-- Modelled from the spec: the MACD contribution table of §4.3. -/
def macdContribution : String → Int
  | "Bullish" => 1
  | _ => -1

/-- Modelled from the spec: `clamp(·, -3, 3)` of §4.3. -/
def clampScore (n : Int) : Int := max (-3) (min 3 n)

/-- Modelled from the spec: an adjacent pair of closes with no missing
value and no >50% single-step relative move (§4.1 outlier policy,
negated). -/
def noJump : Option ℚ → Option ℚ → Prop
  | some p, some c => p ≠ 0 ∧ |c / p - 1| ≤ 1 / 2
  | _, _ => False

/-! ## Concrete inputs used by witnesses and counterexamples -/

/-- The spec's end-to-end scenario input: a 10-bar close series, shorter
than every indicator window. -/
def closes10 : List ℚ := [1, 2, 3, 4, 5, 6, 7, 8, 9, 10]

/-- A constant 15-bar close series: every delta is zero. -/
def constant15 : List ℚ := [1, 1, 1, 1, 1, 1, 1, 1, 1, 1, 1, 1, 1, 1, 1]

/-- A strictly increasing 16-bar close series. -/
def increasing16 : List ℚ :=
  [0, 1, 2, 3, 4, 5, 6, 7, 8, 9, 10, 11, 12, 13, 14, 15]

/-- A 3-bar series with one missing open and an in-range close path. -/
def exSeriesA : Series :=
  { dates := [0, 1, 2]
    opens := [some 1, none, some 3]
    highs := [some 2, some 3, some 4]
    lows := [some 1, some 1, some 2]
    closes := [some 1, some 1, some 2]
    volumes := [some 5, some 6, some 7] }

/-- A fully defined 3-bar series whose close moves stay within 50%. -/
def exSeriesB : Series :=
  { dates := [0, 1, 2]
    opens := [some 4, some 5, some 6]
    highs := [some 5, some 6, some 7]
    lows := [some 3, some 4, some 5]
    closes := [some 4, some 5, some 6]
    volumes := [some 5, some 6, some 7] }

/-- A fully defined 3-bar series whose last close doubles (a flagged
outlier on the final bar). -/
def exSeriesC : Series :=
  { dates := [0, 1, 2]
    opens := [some 1, some 1, some 2]
    highs := [some 1, some 1, some 2]
    lows := [some 1, some 1, some 2]
    closes := [some 1, some 1, some 2]
    volumes := [some 5, some 6, some 7] }

/-! ## Theorems -/

/-- C2: on a latest row whose `MA_50`, `MA_200`, `RSI`, `MACD` and
`MACD_Signal` are all undefined (NaN), every comparison against them is
false, so the evaluator still returns a complete Signal Set with MA signal
"Bearish", RSI signal "Neutral", MACD signal "Bearish", composite score
-2 and recommendation "Strong Sell" — it never refuses. -/
theorem claim_C2_nan_row_strong_sell (c : ℚ) (bu bl : Option ℝ) :
    (analyze_single_stock ⟨some c, none, none, none, none, none, bu, bl⟩).maSignal
        = "Bearish" ∧
    (analyze_single_stock ⟨some c, none, none, none, none, none, bu, bl⟩).rsiSignal
        = "Neutral" ∧
    (analyze_single_stock ⟨some c, none, none, none, none, none, bu, bl⟩).macdSignal
        = "Bearish" ∧
    (analyze_single_stock ⟨some c, none, none, none, none, none, bu, bl⟩).score
        = -2 ∧
    (analyze_single_stock ⟨some c, none, none, none, none, none, bu, bl⟩).recommendation
        = "Strong Sell" :=
  ⟨rfl, rfl, rfl, rfl, rfl⟩

/-- C5: over the defined signal categories the composite score is the
clamped sum of the spec's contribution tables; for arbitrary signal
strings it is always in [-3, 3]; and it does not depend on the Bollinger
fields of the row. -/
theorem claim_C5_composite_score :
    (∀ ma ∈ ["Strong Bullish", "Bullish", "Strong Bearish", "Bearish"],
      ∀ rsi ∈ ["Overbought", "Oversold", "Neutral"],
      ∀ macd ∈ ["Bullish", "Bearish"],
        calculate_composite_score ma rsi macd =
          clampScore (maContribution ma + rsiContribution rsi + macdContribution macd)) ∧
    (∀ ma rsi macd : String,
      -3 ≤ calculate_composite_score ma rsi macd ∧
        calculate_composite_score ma rsi macd ≤ 3) ∧
    (∀ (r : IndicatorRow) (bu bl : Option ℝ),
      (analyze_single_stock
        ⟨r.close, r.ma50, r.ma200, r.rsi, r.macd, r.macdSignal, bu, bl⟩).score =
        (analyze_single_stock r).score) := by
  refine ⟨by decide, ?_, ?_⟩
  · intro ma rsi macd
    exact ⟨le_max_left _ _, max_le (by norm_num) (min_le_left _ _)⟩
  · intro r bu bl
    rfl

/-- Witness for C5: the theorem applied at the category combination
(Strong Bullish, Oversold, Bullish). -/
theorem claim_C5_composite_score_witness :
    calculate_composite_score "Strong Bullish" "Oversold" "Bullish" =
      clampScore (maContribution "Strong Bullish" + rsiContribution "Oversold" +
        macdContribution "Bullish") :=
  claim_C5_composite_score.1 "Strong Bullish" (by decide) "Oversold" (by decide)
    "Bullish" (by decide)

/-- C6: the recommendation mapper realises the fixed score table, and
every integer score outside [-3, 3] maps to "Hold". -/
theorem claim_C6_recommendation_table :
    (get_recommendation 3 = "Strong Buy" ∧ get_recommendation 2 = "Strong Buy" ∧
      get_recommendation 1 = "Buy" ∧ get_recommendation 0 = "Hold" ∧
      get_recommendation (-1) = "Sell" ∧ get_recommendation (-2) = "Strong Sell" ∧
      get_recommendation (-3) = "Strong Sell") ∧
    ∀ s : Int, s < -3 ∨ 3 < s → get_recommendation s = "Hold" := by
  refine ⟨by decide, ?_⟩
  intro s hs
  unfold get_recommendation
  rw [if_neg (by omega), if_neg (by omega), if_neg (by omega), if_neg (by omega),
    if_neg (by omega), if_neg (by omega), if_neg (by omega)]

/-- Witness for C6: the out-of-range branch applied at score 10. -/
theorem claim_C6_recommendation_table_witness : get_recommendation 10 = "Hold" :=
  claim_C6_recommendation_table.2 10 (Or.inr (by decide))

/-- C1 (code bug): on the spec's 10-bar scenario the latest bar has
undefined `MA_50`, `MA_200` and `RSI`, yet `analyze_trends` does not
refuse: it emits a full Signal Set for the symbol (recommendation
"Hold"), instead of excluding it with an "insufficient history"
status. -/
theorem claim_C1_no_insufficient_history_refusal :
    (indicatorRowAt closes10 9).ma50 = none ∧
    (indicatorRowAt closes10 9).ma200 = none ∧
    (indicatorRowAt closes10 9).rsi = none ∧
    (analyze_trends (indicatorRows closes10)).map SignalSet.recommendation =
      some "Hold" := by
  refine ⟨by decide, by decide, by decide, ?_⟩
  have hrange : List.range closes10.length = [0, 1, 2, 3, 4, 5, 6, 7, 8, 9] := rfl
  have hlast : (indicatorRows closes10).getLast? = some (indicatorRowAt closes10 9) := by
    rw [indicatorRows, hrange]
    rfl
  rw [analyze_trends, hlast, Option.map_map]
  show some (analyze_single_stock (indicatorRowAt closes10 9)).recommendation = _
  have hma : get_ma_signal (indicatorRowAt closes10 9) = "Bearish" := by decide
  have hrsi : get_rsi_signal (indicatorRowAt closes10 9).rsi = "Neutral" := by decide
  have hmacd : get_macd_signal (indicatorRowAt closes10 9) = "Bullish" := by
    norm_num [get_macd_signal, fgt, macdAt, macdSignalAt, macdVal, macdList, ewmAt,
      ewmLast, ewmNumDen, ewmStep, alphaOfSpan, closes10, List.range_succ,
      indicatorRowAt]
  simp only [analyze_single_stock, hma, hrsi, hmacd]
  decide

/-- C3 counterexample: on the close series `[1, 2]` the code's MACD at
`t = 1` is `7/312` (pandas `adjust=True` weighting) while the spec's
seeded recurrence gives `28/351`; the two disagree. -/
theorem claim_C3_counterexample :
    macdAt [1, 2] 1 = some (7 / 312) ∧
    macdSpecAt [1, 2] 1 = some (28 / 351) ∧
    macdAt [1, 2] 1 ≠ macdSpecAt [1, 2] 1 := by
  refine ⟨?_, ?_, ?_⟩ <;>
    norm_num [macdAt, macdSpecAt, macdVal, emaRecur, ewmLast, ewmNumDen, ewmStep,
      alphaOfSpan]

/-- Appending one sample performs one EWM step on the running pair. -/
theorem ewmNumDen_append (al : ℚ) (xs : List ℚ) (x : ℚ) :
    ewmNumDen al (xs ++ [x]) = ewmStep al (ewmNumDen al xs) x := by
  simp [ewmNumDen, List.foldl_append]

/-- Closed form of the running EWM pair: the numerator is the
`(1-α)`-weighted sum of the samples (newest weight 1) and the denominator
is the geometric weight total. -/
theorem ewmNumDen_closed_form (al : ℚ) (xs : List ℚ) :
    ewmNumDen al xs =
      (∑ i ∈ Finset.range xs.length, (1 - al) ^ (xs.length - 1 - i) * xs.getD i 0,
        ∑ i ∈ Finset.range xs.length, (1 - al) ^ i) := by
  induction xs using List.reverseRecOn with
  | nil => simp [ewmNumDen]
  | append_singleton ys y ih =>
      have hlen : (ys ++ [y]).length = ys.length + 1 := by simp
      rw [ewmNumDen_append, ih, ewmStep, hlen, Prod.mk.injEq]
      constructor
      · rw [Finset.sum_range_succ, Finset.mul_sum]
        have hgy : (ys ++ [y]).getD ys.length 0 = y := by
          simp [List.getD_eq_getElem?_getD]
        rw [hgy]
        have hpow : ys.length + 1 - 1 - ys.length = 0 := by omega
        rw [hpow, pow_zero, one_mul]
        congr 1
        refine Finset.sum_congr rfl ?_
        intro i hi
        have hi' : i < ys.length := Finset.mem_range.mp hi
        have hg : (ys ++ [y]).getD i 0 = ys.getD i 0 := by
          simp [List.getD_eq_getElem?_getD, List.getElem?_append_left hi']
        rw [hg, ← mul_assoc, ← pow_succ']
        have hexp : ys.length - 1 - i + 1 = ys.length + 1 - 1 - i := by omega
        rw [hexp]
      · rw [Finset.sum_range_succ', Finset.mul_sum, pow_zero]
        congr 1
        refine Finset.sum_congr rfl ?_
        intro i _
        rw [← pow_succ']

/-- The raw EWM value equals the adjusted-weights closed form. -/
theorem ewmLast_eq_adjEMA (al : ℚ) (xs : List ℚ) : ewmLast al xs = adjEMA al xs := by
  rw [ewmLast, ewmNumDen_closed_form, adjEMA]

/-- The MACD column has one entry per bar. -/
theorem length_macdList (xs : List ℚ) : (macdList xs).length = xs.length := by
  simp [macdList]

/-- C3 (amended): at every in-range `t`, MACD equals the difference of the
`adjust=True`-weighted span-12 and span-26 EMAs of the close prefix — the
weighted-average form, not the spec's seeded recurrence (see the
counterexample) — `MACD_Signal` is the span-9 weighted EMA of the MACD
series, and `MACD_Histogram = MACD - MACD_Signal`. -/
theorem claim_C3_macd_adjusted_ema (xs : List ℚ) (t : Nat) (ht : t < xs.length) :
    macdAt xs t =
      some (adjEMA (alphaOfSpan 12) (xs.take (t + 1)) -
        adjEMA (alphaOfSpan 26) (xs.take (t + 1))) ∧
    macdSignalAt xs t = some (adjEMA (alphaOfSpan 9) ((macdList xs).take (t + 1))) ∧
    macdHistAt xs t =
      some ((adjEMA (alphaOfSpan 12) (xs.take (t + 1)) -
          adjEMA (alphaOfSpan 26) (xs.take (t + 1))) -
        adjEMA (alphaOfSpan 9) ((macdList xs).take (t + 1))) := by
  have h1 : macdAt xs t =
      some (adjEMA (alphaOfSpan 12) (xs.take (t + 1)) -
        adjEMA (alphaOfSpan 26) (xs.take (t + 1))) := by
    rw [macdAt, if_pos ht, macdVal, ewmLast_eq_adjEMA, ewmLast_eq_adjEMA]
  have ht' : t < (macdList xs).length := by rw [length_macdList]; exact ht
  have h2 : macdSignalAt xs t =
      some (adjEMA (alphaOfSpan 9) ((macdList xs).take (t + 1))) := by
    rw [macdSignalAt, ewmAt, if_pos ht', ewmLast_eq_adjEMA]
  refine ⟨h1, h2, ?_⟩
  rw [macdHistAt, h1, h2]

/-- Witness for C3 (amended): the theorem applied at the series `[1, 2]`,
`t = 1`. -/
theorem claim_C3_macd_adjusted_ema_witness :
    macdAt [1, 2] 1 =
      some (adjEMA (alphaOfSpan 12) (([1, 2] : List ℚ).take 2) -
        adjEMA (alphaOfSpan 26) (([1, 2] : List ℚ).take 2)) ∧
    macdSignalAt [1, 2] 1 =
      some (adjEMA (alphaOfSpan 9) ((macdList [1, 2]).take 2)) ∧
    macdHistAt [1, 2] 1 =
      some ((adjEMA (alphaOfSpan 12) (([1, 2] : List ℚ).take 2) -
          adjEMA (alphaOfSpan 26) (([1, 2] : List ℚ).take 2)) -
        adjEMA (alphaOfSpan 9) ((macdList [1, 2]).take 2)) :=
  claim_C3_macd_adjusted_ema [1, 2] 1 (by decide)

/-- Dropping `d` entries of `range n` leaves the range starting at `d`. -/
theorem drop_range_eq (n d : Nat) (hd : d ≤ n) :
    (List.range n).drop d = List.range' d (n - d) := by
  have h1 : List.range' 0 n = List.range' 0 d ++ List.range' (0 + d) (n - d) := by
    rw [List.range'_append_1]
    congr 1
    omega
  rw [List.range_eq_range', h1, List.drop_left' (by simp), Nat.zero_add]

/-- The trailing window of width `w` at `t`, taken out of a column that is
`f` mapped over the bar indices, is `f` mapped over the `w` indices ending
at `t`. -/
theorem window_map_range (f : Nat → ℚ) (n t w : Nat) (hwt : w ≤ t + 1) (htn : t < n) :
    (((List.range n).map f).take (t + 1)).drop (t + 1 - w) =
      (List.range' (t + 1 - w) w).map f := by
  rw [← List.map_take, List.take_range, Nat.min_eq_left (by omega), ← List.map_drop,
    drop_range_eq (t + 1) (t + 1 - w) (by omega)]
  congr 2
  omega

/-- `getD` agrees with `get` in range. -/
theorem getD_eq_get (xs : List ℚ) (k : Nat) (hk : k < xs.length) :
    xs.getD k 0 = xs.get ⟨k, hk⟩ := by
  rw [List.getD_eq_getElem?_getD, List.getElem?_eq_getElem hk]
  rfl

/-- On a strictly increasing close series every in-range bar after the
first has a positive gain. -/
theorem gainAt_pos (xs : List ℚ) (hmono : List.Chain' (· < ·) xs) (i : Nat)
    (h1 : 1 ≤ i) (h2 : i < xs.length) : 0 < gainAt xs i := by
  have hij : i - 1 < xs.length - 1 := by omega
  have hstep := List.chain'_iff_get.mp hmono (i - 1) hij
  have hi1 : i - 1 + 1 = i := by omega
  rw [gainAt, if_neg (by omega)]
  have hlt : xs.getD (i - 1) 0 < xs.getD i 0 := by
    rw [getD_eq_get xs (i - 1) (by omega), getD_eq_get xs i h2]
    simpa [hi1] using hstep
  exact lt_of_lt_of_le (sub_pos.mpr hlt) (le_max_left _ _)

/-- On a strictly increasing close series every in-range bar has zero
loss. -/
theorem lossAt_eq_zero (xs : List ℚ) (hmono : List.Chain' (· < ·) xs) (i : Nat)
    (h2 : i < xs.length) : lossAt xs i = 0 := by
  rw [lossAt]
  by_cases h0 : i = 0
  · rw [if_pos h0]
  · rw [if_neg h0]
    have hij : i - 1 < xs.length - 1 := by omega
    have hstep := List.chain'_iff_get.mp hmono (i - 1) hij
    have hi1 : i - 1 + 1 = i := by omega
    have hlt : xs.getD (i - 1) 0 < xs.getD i 0 := by
      rw [getD_eq_get xs (i - 1) (by omega), getD_eq_get xs i h2]
      simpa [hi1] using hstep
    exact max_eq_right (sub_nonpos.mpr hlt.le)

/-- The 14-bar average gain at `t ≥ 13` is the mean of the gains over the
window of indices ending at `t`. -/
theorem avgGain_eq_window (xs : List ℚ) (t : Nat) (h13 : 13 ≤ t)
    (htn : t < xs.length) :
    avgGain xs t =
      some (((List.range' (t + 1 - 14) 14).map (gainAt xs)).sum / 14) := by
  have hlen : ((List.range xs.length).map (gainAt xs)).length = xs.length := by simp
  rw [avgGain, rollingMean, if_pos ⟨by omega, by omega⟩,
    window_map_range (gainAt xs) xs.length t 14 (by omega) htn]
  norm_num

/-- The 14-bar average loss at `t ≥ 13` is the mean of the losses over the
window of indices ending at `t`. -/
theorem avgLoss_eq_window (xs : List ℚ) (t : Nat) (h13 : 13 ≤ t)
    (htn : t < xs.length) :
    avgLoss xs t =
      some (((List.range' (t + 1 - 14) 14).map (lossAt xs)).sum / 14) := by
  have hlen : ((List.range xs.length).map (lossAt xs)).length = xs.length := by simp
  rw [avgLoss, rollingMean, if_pos ⟨by omega, by omega⟩,
    window_map_range (lossAt xs) xs.length t 14 (by omega) htn]
  norm_num

/-- When the average loss is zero and the average gain is positive, the
RSI formula saturates at exactly 100. -/
theorem rsiAt_saturates (xs : List ℚ) (t : Nat) (g : ℚ)
    (hG : avgGain xs t = some g) (hGpos : 0 < g) (hL : avgLoss xs t = some 0) :
    rsiAt xs t = some 100 := by
  simp only [rsiAt, hG, hL]
  simp [hGpos.ne']

/-- C4 (amended): whenever the 14-bar trailing average loss at `t` is zero
AND the trailing average gain is positive, the computed RSI at `t` is
exactly 100 (the float division `g/0` with `g > 0` saturates rather than
raising); in particular, for a strictly monotonically increasing close
series RSI equals 100 at every point after the 14-bar warmup.  (When the
average gain is zero as well, RSI is NaN, not 100 — see the
counterexample.) -/
theorem claim_C4_rsi_saturation :
    (∀ (xs : List ℚ) (t : Nat), 14 ≤ t → t < xs.length →
      avgLoss xs t = some 0 →
      (∀ g : ℚ, avgGain xs t = some g → 0 < g) →
      rsiAt xs t = some 100) ∧
    (∀ xs : List ℚ, List.Chain' (· < ·) xs →
      ∀ t : Nat, 14 ≤ t → t < xs.length → rsiAt xs t = some 100) := by
  constructor
  · intro xs t h14 htn hL hG
    have hGw := avgGain_eq_window xs t (by omega) htn
    exact rsiAt_saturates xs t _ hGw (hG _ hGw) hL
  · intro xs hmono t h14 htn
    have hGw := avgGain_eq_window xs t (by omega) htn
    have hLw := avgLoss_eq_window xs t (by omega) htn
    have hL0 : avgLoss xs t = some 0 := by
      rw [hLw]
      congr 1
      rw [List.sum_eq_zero, zero_div]
      intro x hx
      rcases List.mem_map.mp hx with ⟨i, hi, rfl⟩
      rcases List.mem_range'_1.mp hi with ⟨hi1, hi2⟩
      exact lossAt_eq_zero xs hmono i (by omega)
    have hGpos : 0 < ((List.range' (t + 1 - 14) 14).map (gainAt xs)).sum / 14 := by
      apply div_pos ?_ (by norm_num)
      apply List.sum_pos
      · intro x hx
        rcases List.mem_map.mp hx with ⟨i, hi, rfl⟩
        rcases List.mem_range'_1.mp hi with ⟨hi1, hi2⟩
        exact gainAt_pos xs hmono i (by omega) (by omega)
      · have : ((List.range' (t + 1 - 14) 14).map (gainAt xs)).length = 14 := by simp
        exact List.ne_nil_of_length_pos (by omega)
    exact rsiAt_saturates xs t _ hGw hGpos hL0

/-- C4 counterexample: on a constant 15-bar close series the 14-bar
average loss at `t = 14` is zero, yet RSI is not 100 — the `0/0` float
division makes it NaN (undefined), refuting "average loss zero implies
RSI = 100" as stated. -/
theorem claim_C4_counterexample :
    avgLoss constant15 14 = some 0 ∧ rsiAt constant15 14 ≠ some 100 := by
  have hG : avgGain constant15 14 = some 0 := by
    rw [avgGain_eq_window constant15 14 (by norm_num) (by norm_num [constant15])]
    norm_num [constant15, gainAt, List.range']
  have hL : avgLoss constant15 14 = some 0 := by
    rw [avgLoss_eq_window constant15 14 (by norm_num) (by norm_num [constant15])]
    norm_num [constant15, lossAt, List.range']
  refine ⟨hL, ?_⟩
  simp [rsiAt, hG, hL]

/-- Witness for C4: the strictly-increasing branch applied to a 16-bar
strictly increasing series at `t = 14`. -/
theorem claim_C4_rsi_saturation_witness : rsiAt increasing16 14 = some 100 :=
  claim_C4_rsi_saturation.2 increasing16
    (by norm_num [increasing16, List.chain'_cons]) 14 (by norm_num)
    (by norm_num [increasing16])

/-- Two series agreeing up to index `t` agree at every entry up to `t`. -/
theorem getD_congr_of_take_eq {xs ys : List ℚ} {t : Nat}
    (h : xs.take (t + 1) = ys.take (t + 1)) {i : Nat} (hi : i ≤ t) :
    xs.getD i 0 = ys.getD i 0 := by
  have h1 : (xs.take (t + 1))[i]? = xs[i]? := List.getElem?_take_of_lt (by omega)
  have h2 : (ys.take (t + 1))[i]? = ys[i]? := List.getElem?_take_of_lt (by omega)
  rw [List.getD_eq_getElem?_getD, List.getD_eq_getElem?_getD, ← h1, ← h2, h]

/-- Agreement on the prefix up to `t` gives agreement on every shorter
prefix. -/
theorem take_prefix_congr {xs ys : List ℚ} {t : Nat}
    (h : xs.take (t + 1) = ys.take (t + 1)) {i : Nat} (hi : i ≤ t) :
    xs.take (i + 1) = ys.take (i + 1) := by
  have hx : xs.take (i + 1) = (xs.take (t + 1)).take (i + 1) := by
    rw [List.take_take, Nat.min_eq_left (by omega)]
  have hy : ys.take (i + 1) = (ys.take (t + 1)).take (i + 1) := by
    rw [List.take_take, Nat.min_eq_left (by omega)]
  rw [hx, hy, h]

/-- The rolling mean at `t` only reads the prefix up to `t`. -/
theorem rollingMean_congr (w : Nat) {xs ys : List ℚ} {t : Nat}
    (h : xs.take (t + 1) = ys.take (t + 1)) (hx : t < xs.length)
    (hy : t < ys.length) : rollingMean w xs t = rollingMean w ys t := by
  by_cases hw : w ≤ t + 1
  · rw [rollingMean, rollingMean, if_pos ⟨hx, hw⟩, if_pos ⟨hy, hw⟩, h]
  · rw [rollingMean, rollingMean, if_neg (fun hc => hw hc.2),
      if_neg (fun hc => hw hc.2)]

/-- The rolling sample variance at `t` only reads the prefix up to `t`. -/
theorem rollingVar_congr (w : Nat) {xs ys : List ℚ} {t : Nat}
    (h : xs.take (t + 1) = ys.take (t + 1)) (hx : t < xs.length)
    (hy : t < ys.length) : rollingVar w xs t = rollingVar w ys t := by
  by_cases hw : w ≤ t + 1
  · rw [rollingVar, rollingVar, if_pos ⟨hx, hw⟩, if_pos ⟨hy, hw⟩, h]
  · rw [rollingVar, rollingVar, if_neg (fun hc => hw hc.2),
      if_neg (fun hc => hw hc.2)]

/-- The rolling std at `t` only reads the prefix up to `t`. -/
theorem rollingStd_congr (w : Nat) {xs ys : List ℚ} {t : Nat}
    (h : xs.take (t + 1) = ys.take (t + 1)) (hx : t < xs.length)
    (hy : t < ys.length) : rollingStd w xs t = rollingStd w ys t := by
  rw [rollingStd, rollingStd, rollingVar_congr w h hx hy]

/-- Prefixes of two index-mapped columns agree when the entry functions
agree up to `t`. -/
theorem map_range_take_congr (f g : Nat → ℚ) {n m t : Nat} (hn : t < n)
    (hm : t < m) (h : ∀ i, i ≤ t → f i = g i) :
    ((List.range n).map f).take (t + 1) = ((List.range m).map g).take (t + 1) := by
  rw [← List.map_take, ← List.map_take, List.take_range, List.take_range,
    Nat.min_eq_left (by omega), Nat.min_eq_left (by omega)]
  refine List.map_congr_left ?_
  intro i hi
  exact h i (by have := List.mem_range.mp hi; omega)

/-- The per-bar gain at `i ≤ t` only reads the prefix up to `t`. -/
theorem gainAt_congr {xs ys : List ℚ} {t : Nat}
    (h : xs.take (t + 1) = ys.take (t + 1)) {i : Nat} (hi : i ≤ t) :
    gainAt xs i = gainAt ys i := by
  rw [gainAt, gainAt]
  by_cases h0 : i = 0
  · rw [if_pos h0, if_pos h0]
  · rw [if_neg h0, if_neg h0, getD_congr_of_take_eq h hi,
      getD_congr_of_take_eq h (by omega : i - 1 ≤ t)]

/-- The per-bar loss at `i ≤ t` only reads the prefix up to `t`. -/
theorem lossAt_congr {xs ys : List ℚ} {t : Nat}
    (h : xs.take (t + 1) = ys.take (t + 1)) {i : Nat} (hi : i ≤ t) :
    lossAt xs i = lossAt ys i := by
  rw [lossAt, lossAt]
  by_cases h0 : i = 0
  · rw [if_pos h0, if_pos h0]
  · rw [if_neg h0, if_neg h0, getD_congr_of_take_eq h hi,
      getD_congr_of_take_eq h (by omega : i - 1 ≤ t)]

/-- The 14-bar average gain at `t` only reads the prefix up to `t`. -/
theorem avgGain_congr {xs ys : List ℚ} {t : Nat}
    (h : xs.take (t + 1) = ys.take (t + 1)) (hx : t < xs.length)
    (hy : t < ys.length) : avgGain xs t = avgGain ys t := by
  rw [avgGain, avgGain]
  exact rollingMean_congr 14
    (map_range_take_congr _ _ hx hy (fun i hi => gainAt_congr h hi))
    (by simpa using hx) (by simpa using hy)

/-- The 14-bar average loss at `t` only reads the prefix up to `t`. -/
theorem avgLoss_congr {xs ys : List ℚ} {t : Nat}
    (h : xs.take (t + 1) = ys.take (t + 1)) (hx : t < xs.length)
    (hy : t < ys.length) : avgLoss xs t = avgLoss ys t := by
  rw [avgLoss, avgLoss]
  exact rollingMean_congr 14
    (map_range_take_congr _ _ hx hy (fun i hi => lossAt_congr h hi))
    (by simpa using hx) (by simpa using hy)

/-- The RSI at `t` only reads the prefix up to `t`. -/
theorem rsiAt_congr {xs ys : List ℚ} {t : Nat}
    (h : xs.take (t + 1) = ys.take (t + 1)) (hx : t < xs.length)
    (hy : t < ys.length) : rsiAt xs t = rsiAt ys t := by
  unfold rsiAt
  rw [avgGain_congr h hx hy, avgLoss_congr h hx hy]

/-- The MACD value at `i ≤ t` only reads the prefix up to `t`. -/
theorem macdVal_congr {xs ys : List ℚ} {t : Nat}
    (h : xs.take (t + 1) = ys.take (t + 1)) {i : Nat} (hi : i ≤ t) :
    macdVal xs i = macdVal ys i := by
  rw [macdVal, macdVal, take_prefix_congr h hi]

/-- The MACD column at `t` only reads the prefix up to `t`. -/
theorem macdAt_congr {xs ys : List ℚ} {t : Nat}
    (h : xs.take (t + 1) = ys.take (t + 1)) (hx : t < xs.length)
    (hy : t < ys.length) : macdAt xs t = macdAt ys t := by
  rw [macdAt, macdAt, if_pos hx, if_pos hy, macdVal_congr h (le_refl t)]

/-- The MACD signal line at `t` only reads the prefix up to `t`. -/
theorem macdSignalAt_congr {xs ys : List ℚ} {t : Nat}
    (h : xs.take (t + 1) = ys.take (t + 1)) (hx : t < xs.length)
    (hy : t < ys.length) : macdSignalAt xs t = macdSignalAt ys t := by
  rw [macdSignalAt, macdSignalAt, ewmAt, ewmAt,
    if_pos (by simpa [macdList] using hx), if_pos (by simpa [macdList] using hy)]
  congr 2
  unfold macdList
  exact map_range_take_congr _ _ hx hy (fun i hi => macdVal_congr h hi)

/-- The MACD histogram at `t` only reads the prefix up to `t`. -/
theorem macdHistAt_congr {xs ys : List ℚ} {t : Nat}
    (h : xs.take (t + 1) = ys.take (t + 1)) (hx : t < xs.length)
    (hy : t < ys.length) : macdHistAt xs t = macdHistAt ys t := by
  unfold macdHistAt
  rw [macdAt_congr h hx hy, macdSignalAt_congr h hx hy]

/-- The percent price change at `t` only reads the prefix up to `t`. -/
theorem priceChangePctAt_congr {xs ys : List ℚ} {t : Nat}
    (h : xs.take (t + 1) = ys.take (t + 1)) (hx : t < xs.length)
    (hy : t < ys.length) : priceChangePctAt xs t = priceChangePctAt ys t := by
  rw [priceChangePctAt, priceChangePctAt]
  by_cases h0 : 0 < t
  · rw [if_pos ⟨h0, hx⟩, if_pos ⟨h0, hy⟩, getD_congr_of_take_eq h (le_refl t),
      getD_congr_of_take_eq h (by omega : t - 1 ≤ t)]
  · rw [if_neg (fun hc => h0 hc.1), if_neg (fun hc => h0 hc.1)]

/-- C7: the Indicator Engine is causal — two close series that agree on
bars `0..t` produce identical values of every derived column at every
index `u ≤ t`; modifying or removing bars after `t` cannot change them. -/
theorem claim_C7_causality (xs ys : List ℚ) (t : Nat)
    (h : xs.take (t + 1) = ys.take (t + 1)) (hx : t < xs.length)
    (hy : t < ys.length) :
    ∀ u, u ≤ t →
      ma50At xs u = ma50At ys u ∧ ma200At xs u = ma200At ys u ∧
      rsiAt xs u = rsiAt ys u ∧ macdAt xs u = macdAt ys u ∧
      macdSignalAt xs u = macdSignalAt ys u ∧ macdHistAt xs u = macdHistAt ys u ∧
      bbMiddleAt xs u = bbMiddleAt ys u ∧ bbUpperAt xs u = bbUpperAt ys u ∧
      bbLowerAt xs u = bbLowerAt ys u ∧ volatilityAt xs u = volatilityAt ys u ∧
      priceChangePctAt xs u = priceChangePctAt ys u := by
  intro u hu
  have h' : xs.take (u + 1) = ys.take (u + 1) := take_prefix_congr h hu
  have hux : u < xs.length := lt_of_le_of_lt (le_of_eq rfl) (lt_of_le_of_lt hu hx)
  have huy : u < ys.length := lt_of_le_of_lt hu hy
  refine ⟨rollingMean_congr 50 h' hux huy, rollingMean_congr 200 h' hux huy,
    rsiAt_congr h' hux huy, macdAt_congr h' hux huy, macdSignalAt_congr h' hux huy,
    macdHistAt_congr h' hux huy, rollingMean_congr 20 h' hux huy, ?_, ?_,
    rollingStd_congr 30 h' hux huy, priceChangePctAt_congr h' hux huy⟩
  · unfold bbUpperAt bbMiddleAt
    rw [rollingMean_congr 20 h' hux huy, rollingStd_congr 20 h' hux huy]
  · unfold bbLowerAt bbMiddleAt
    rw [rollingMean_congr 20 h' hux huy, rollingStd_congr 20 h' hux huy]

/-- Witness for C7: the series `[1, 2, 3]` and `[1, 2, 3, 100]` agree on
bars 0..2, so every indicator column agrees at index 2. -/
theorem claim_C7_causality_witness :
    ma50At [1, 2, 3] 2 = ma50At [1, 2, 3, 100] 2 ∧
    ma200At [1, 2, 3] 2 = ma200At [1, 2, 3, 100] 2 ∧
    rsiAt [1, 2, 3] 2 = rsiAt [1, 2, 3, 100] 2 ∧
    macdAt [1, 2, 3] 2 = macdAt [1, 2, 3, 100] 2 ∧
    macdSignalAt [1, 2, 3] 2 = macdSignalAt [1, 2, 3, 100] 2 ∧
    macdHistAt [1, 2, 3] 2 = macdHistAt [1, 2, 3, 100] 2 ∧
    bbMiddleAt [1, 2, 3] 2 = bbMiddleAt [1, 2, 3, 100] 2 ∧
    bbUpperAt [1, 2, 3] 2 = bbUpperAt [1, 2, 3, 100] 2 ∧
    bbLowerAt [1, 2, 3] 2 = bbLowerAt [1, 2, 3, 100] 2 ∧
    volatilityAt [1, 2, 3] 2 = volatilityAt [1, 2, 3, 100] 2 ∧
    priceChangePctAt [1, 2, 3] 2 = priceChangePctAt [1, 2, 3, 100] 2 :=
  claim_C7_causality [1, 2, 3] [1, 2, 3, 100] 2 rfl (by decide) (by decide) 2
    (le_refl 2)

/-- Forward filling keeps the column length. -/
theorem length_ffillFrom (prev : Option ℚ) (col : List (Option ℚ)) :
    (ffillFrom prev col).length = col.length := by
  induction col generalizing prev with
  | nil => rfl
  | cons a rest ih =>
      cases a with
      | none => simp [ffillFrom, ih]
      | some y => simp [ffillFrom, ih]

/-- Both fills keep the column length. -/
theorem length_fillCol (col : List (Option ℚ)) : (fillCol col).length = col.length := by
  rw [fillCol, bfill, ffill, ffill]
  simp [length_ffillFrom]

/-- Forward filling never changes a defined cell. -/
theorem ffillFrom_getD_some (col : List (Option ℚ)) : ∀ (prev : Option ℚ) (i : Nat)
    (x : ℚ), col.getD i none = some x → (ffillFrom prev col).getD i none = some x := by
  induction col with
  | nil =>
      intro prev i x h
      simp at h
  | cons a rest ih =>
      intro prev i x h
      cases i with
      | zero =>
          cases a with
          | none => simp at h
          | some y => simpa [ffillFrom] using h
      | succ j =>
          cases a with
          | none =>
              have hj := ih prev j x (by simpa using h)
              simpa [ffillFrom] using hj
          | some y =>
              have hj := ih (some y) j x (by simpa using h)
              simpa [ffillFrom] using hj

/-- Backward filling never changes a defined cell. -/
theorem bfill_getD_some (col : List (Option ℚ)) (i : Nat) (x : ℚ)
    (h : col.getD i none = some x) : (bfill col).getD i none = some x := by
  have hi : i < col.length := by
    by_contra hge
    rw [List.getD_eq_getElem?_getD, List.getElem?_eq_none (by omega)] at h
    simp at h
  have hrev : col.reverse.getD (col.length - 1 - i) none = some x := by
    rw [List.getD_eq_getElem?_getD,
      List.getElem?_reverse (by omega)]
    have hidx : col.length - 1 - (col.length - 1 - i) = i := by omega
    rw [hidx, ← List.getD_eq_getElem?_getD]
    exact h
  have h2 := ffillFrom_getD_some col.reverse none (col.length - 1 - i) x hrev
  have hflen : (ffillFrom none col.reverse).length = col.length := by
    rw [length_ffillFrom]; simp
  rw [bfill, ffill, List.getD_eq_getElem?_getD,
    List.getElem?_reverse (by rw [hflen]; omega), hflen]
  rw [List.getD_eq_getElem?_getD] at h2
  exact h2

/-- The full fill never changes a defined cell. -/
theorem fillCol_getD_some (col : List (Option ℚ)) (i : Nat) (x : ℚ)
    (h : col.getD i none = some x) : (fillCol col).getD i none = some x :=
  bfill_getD_some _ i x (ffillFrom_getD_some col none i x h)

/-- The cleaned close column keeps the bar count. -/
theorem cleanCloses_length (closes : List (Option ℚ)) :
    (cleanCloses closes).length = closes.length := by
  simp only [cleanCloses]
  split
  · simp [length_fillCol]
  · exact length_fillCol closes

/-- C8: the Cleaner keeps the bar count and the dates of its input, and
every open, high, low and volume value that is present (non-missing) in
the input is unchanged in the output — outlier smoothing touches only the
close column. -/
theorem claim_C8_cleaner_frame (s : Series) :
    (clean_and_preprocess_data s).dates = s.dates ∧
    (clean_and_preprocess_data s).opens.length = s.opens.length ∧
    (clean_and_preprocess_data s).highs.length = s.highs.length ∧
    (clean_and_preprocess_data s).lows.length = s.lows.length ∧
    (clean_and_preprocess_data s).closes.length = s.closes.length ∧
    (clean_and_preprocess_data s).volumes.length = s.volumes.length ∧
    (∀ (i : Nat) (x : ℚ), s.opens.getD i none = some x →
      (clean_and_preprocess_data s).opens.getD i none = some x) ∧
    (∀ (i : Nat) (x : ℚ), s.highs.getD i none = some x →
      (clean_and_preprocess_data s).highs.getD i none = some x) ∧
    (∀ (i : Nat) (x : ℚ), s.lows.getD i none = some x →
      (clean_and_preprocess_data s).lows.getD i none = some x) ∧
    (∀ (i : Nat) (x : ℚ), s.volumes.getD i none = some x →
      (clean_and_preprocess_data s).volumes.getD i none = some x) :=
  ⟨rfl, length_fillCol _, length_fillCol _, length_fillCol _, cleanCloses_length _,
    length_fillCol _,
    fun i x h => fillCol_getD_some _ i x h,
    fun i x h => fillCol_getD_some _ i x h,
    fun i x h => fillCol_getD_some _ i x h,
    fun i x h => fillCol_getD_some _ i x h⟩

/-- Witness for C8: on a concrete 3-bar series the dates survive and the
defined opens/volumes survive the Cleaner. -/
theorem claim_C8_cleaner_frame_witness :
    (clean_and_preprocess_data exSeriesA).dates = exSeriesA.dates ∧
    (clean_and_preprocess_data exSeriesA).opens.getD 0 none = some 1 ∧
    (clean_and_preprocess_data exSeriesA).volumes.getD 2 none = some 7 :=
  ⟨(claim_C8_cleaner_frame exSeriesA).1,
    (claim_C8_cleaner_frame exSeriesA).2.2.2.2.2.2.1 0 1 rfl,
    (claim_C8_cleaner_frame exSeriesA).2.2.2.2.2.2.2.2.2 2 7 rfl⟩

/-- Forward filling a fully defined column is the identity. -/
theorem ffillFrom_all_some (col : List (Option ℚ)) : ∀ prev : Option ℚ,
    col.all Option.isSome = true → ffillFrom prev col = col := by
  induction col with
  | nil => intro prev _; rfl
  | cons a rest ih =>
      intro prev h
      rcases List.all_eq_true.mp h a (List.mem_cons_self a rest) with hs
      cases a with
      | none => simp at hs
      | some y =>
          have hrest : rest.all Option.isSome = true := by
            rw [List.all_eq_true]
            intro x hx
            exact List.all_eq_true.mp h x (List.mem_cons_of_mem _ hx)
          rw [ffillFrom, ih (some y) hrest]

/-- Filling a fully defined column is the identity. -/
theorem fillCol_all_some (col : List (Option ℚ))
    (h : col.all Option.isSome = true) : fillCol col = col := by
  have hrev : col.reverse.all Option.isSome = true := by
    rw [List.all_eq_true]
    intro x hx
    exact List.all_eq_true.mp h x (List.mem_reverse.mp hx)
  rw [fillCol, ffill, ffillFrom_all_some col none h, bfill, ffill,
    ffillFrom_all_some col.reverse none hrev, List.reverse_reverse]

/-- A fully defined column has a value at every in-range index. -/
theorem all_some_getD (col : List (Option ℚ)) (h : col.all Option.isSome = true)
    (k : Nat) (hk : k < col.length) : ∃ x : ℚ, col.getD k none = some x := by
  have hmem : col.get ⟨k, hk⟩ ∈ col := List.get_mem col k hk
  have hs := List.all_eq_true.mp h _ hmem
  rcases Option.isSome_iff_exists.mp hs with ⟨x, hx⟩
  refine ⟨x, ?_⟩
  rw [List.getD_eq_getElem?_getD, List.getElem?_eq_getElem hk]
  simpa using hx

/-- On a fully defined close column whose adjacent moves never exceed
50%, no bar is flagged as an outlier. -/
theorem outlierAt_eq_false_of_noJump (col : List (Option ℚ))
    (hall : col.all Option.isSome = true) (hchain : List.Chain' noJump col)
    (i : Nat) : outlierAt col i = false := by
  rw [outlierAt]
  by_cases h0 : i = 0
  · rw [if_pos h0]
  · rw [if_neg h0]
    by_cases hilen : i < col.length
    · obtain ⟨p, hp⟩ := all_some_getD col hall (i - 1) (by omega)
      obtain ⟨c, hc⟩ := all_some_getD col hall i hilen
      have hij : i - 1 < col.length - 1 := by omega
      have hstep := List.chain'_iff_get.mp hchain (i - 1) hij
      have hgp : col.getD (i - 1) none = col.get ⟨i - 1, by omega⟩ := by
        rw [List.getD_eq_getElem?_getD, List.getElem?_eq_getElem (by omega)]
        rfl
      have hgc : col.getD (i - 1 + 1) none = col.get ⟨i - 1 + 1, by omega⟩ := by
        rw [List.getD_eq_getElem?_getD, List.getElem?_eq_getElem (by omega)]
        rfl
      rw [← hgp, ← hgc] at hstep
      rw [show i - 1 + 1 = i from by omega] at hstep
      rw [hp, hc] at hstep
      have hnj : p ≠ 0 ∧ |c / p - 1| ≤ 1 / 2 := hstep
      simp only [hp, hc]
      rw [if_neg hnj.1]
      exact decide_eq_false (not_lt.mpr hnj.2)
    · have hnone : col.getD i none = none := by
        rw [List.getD_eq_getElem?_getD, List.getElem?_eq_none (by omega)]
        rfl
      rw [hnone]
      rcases col.getD (i - 1) none with _ | p <;> rfl

/-- A fully defined, jump-free close column passes the Cleaner's close
stage unchanged. -/
theorem cleanCloses_eq_self (closes : List (Option ℚ))
    (hall : closes.all Option.isSome = true) (hchain : List.Chain' noJump closes) :
    cleanCloses closes = closes := by
  have hfc : fillCol closes = closes := fillCol_all_some closes hall
  have hany : ((List.range (fillCol closes).length).map
      (outlierAt (fillCol closes))).any id = false := by
    rw [List.any_eq_false]
    intro x hx
    rcases List.mem_map.mp hx with ⟨i, _, rfl⟩
    rw [hfc, outlierAt_eq_false_of_noJump closes hall hchain i]
    simp
  simp only [cleanCloses, hany]
  rw [if_neg (by simp), hfc]

/-- C9: the Cleaner is the identity on an already-clean series (no
missing values, no >50% single-step close move), so applying it twice
equals applying it once. -/
theorem claim_C9_cleaner_idempotent (s : Series)
    (ho : s.opens.all Option.isSome = true) (hh : s.highs.all Option.isSome = true)
    (hl : s.lows.all Option.isSome = true) (hc : s.closes.all Option.isSome = true)
    (hv : s.volumes.all Option.isSome = true)
    (hjump : List.Chain' noJump s.closes) :
    clean_and_preprocess_data s = s ∧
    clean_and_preprocess_data (clean_and_preprocess_data s) =
      clean_and_preprocess_data s := by
  have h1 : clean_and_preprocess_data s = s := by
    obtain ⟨d, op, hi, lo, cl, vo⟩ := s
    simp only [clean_and_preprocess_data, Series.mk.injEq]
    constructor
    · trivial
    · exact ⟨fillCol_all_some op ho, fillCol_all_some hi hh,
        fillCol_all_some lo hl, cleanCloses_eq_self cl hc hjump,
        fillCol_all_some vo hv⟩
  exact ⟨h1, by rw [h1]; exact h1⟩

/-- Witness for C9: a fully defined 3-bar series with 25% and 20% close
moves is a fixed point of the Cleaner. -/
theorem claim_C9_cleaner_idempotent_witness :
    clean_and_preprocess_data exSeriesB = exSeriesB ∧
    clean_and_preprocess_data (clean_and_preprocess_data exSeriesB) =
      clean_and_preprocess_data exSeriesB :=
  claim_C9_cleaner_idempotent exSeriesB rfl rfl rfl rfl rfl
    (by norm_num [exSeriesB, List.chain'_cons, List.chain'_singleton, noJump,
      abs_le])

/-- The centered 3-bar rolling mean is undefined whenever the right
neighbour falls off the end of the column. -/
theorem roll3Mean_out_of_range (fc : List (Option ℚ)) (i : Nat)
    (hi : fc.length ≤ i + 1) : roll3Mean fc i = none := by
  rw [roll3Mean]
  by_cases h0 : i = 0
  · rw [if_pos h0]
  · rw [if_neg h0]
    have h3 : fc.getD (i + 1) none = none := by
      rw [List.getD_eq_getElem?_getD, List.getElem?_eq_none (by omega)]
      rfl
    rw [h3]
    rcases fc.getD (i - 1) none with _ | a <;> rcases fc.getD i none with _ | b <;> rfl

/-- C10: the first bar is never flagged as an outlier (its relative
change is undefined), and when the last bar is flagged its replacement —
the centered 3-bar rolling mean, which needs a right neighbour — is
undefined, so the Cleaner writes a missing close there; cleaning can
therefore introduce a missing close into a series that had none (see the
witness). -/
theorem claim_C10_boundary_smoothing :
    (∀ closes : List (Option ℚ), outlierAt (fillCol closes) 0 = false) ∧
    (∀ s : Series, 0 < s.closes.length →
      outlierAt (fillCol s.closes) (s.closes.length - 1) = true →
      (clean_and_preprocess_data s).closes.getD (s.closes.length - 1) none = none) := by
  constructor
  · intro closes
    rfl
  · intro s hlen hflag
    have hfclen : (fillCol s.closes).length = s.closes.length := length_fillCol _
    have hi : s.closes.length - 1 < (fillCol s.closes).length := by omega
    have hany : ((List.range (fillCol s.closes).length).map
        (outlierAt (fillCol s.closes))).any id = true := by
      rw [List.any_eq_true]
      exact ⟨outlierAt (fillCol s.closes) (s.closes.length - 1),
        List.mem_map.mpr ⟨s.closes.length - 1, List.mem_range.mpr hi, rfl⟩, hflag⟩
    have hcc : (clean_and_preprocess_data s).closes =
        (List.range (fillCol s.closes).length).map
          (fun i => if outlierAt (fillCol s.closes) i
            then roll3Mean (fillCol s.closes) i
            else (fillCol s.closes).getD i none) := by
      show cleanCloses s.closes = _
      simp only [cleanCloses]
      rw [if_pos hany]
    rw [hcc, List.getD_eq_getElem?_getD, List.getElem?_map, List.getElem?_range hi]
    simp only [Option.map_some', Option.getD_some]
    rw [if_pos hflag]
    exact roll3Mean_out_of_range _ _ (by omega)

/-- Witness for C10: a series whose closes `[1, 1, 2]` are all present
has its doubled last close flagged, and the cleaned series has a missing
close at that last bar. -/
theorem claim_C10_boundary_smoothing_witness :
    exSeriesC.closes.all Option.isSome = true ∧
    (clean_and_preprocess_data exSeriesC).closes.getD 2 none = none :=
  ⟨rfl, claim_C10_boundary_smoothing.2 exSeriesC (by decide)
    (by norm_num [exSeriesC, fillCol, bfill, ffill, ffillFrom, outlierAt, abs_le])⟩

/-- Witness for C2: the theorem applied at close 5 with absent Bollinger
bounds. -/
theorem claim_C2_nan_row_strong_sell_witness :
    (analyze_single_stock ⟨some 5, none, none, none, none, none, none, none⟩).score
        = -2 ∧
    (analyze_single_stock ⟨some 5, none, none, none, none, none, none, none⟩).recommendation
        = "Strong Sell" :=
  ⟨(claim_C2_nan_row_strong_sell 5 none none).2.2.2.1,
    (claim_C2_nan_row_strong_sell 5 none none).2.2.2.2⟩
